import Mathlib

/-!
Verification of the AAUGeoAI K-means classification pipeline
(`src/logic/classify_python_kmeans.py`, `src/logic/llm_prompt.py`,
`src/logic/llm_client.py`) against its natural-language specification.

The Python code is shallowly embedded: numeric values are modelled as
rationals (`ℚ`), raster grids as functions from coordinates to `Int`
pixel values together with explicit height/width bounds, dictionaries as
association lists, and the fallible remote call as an `Except` value.
The free-text `rationale` strings of interpretation entries are
presentation-only data (Python f-strings with float formatting) and are
not modelled; every claim under study speaks only of labels, confidences
and control flow.
-/

set_option maxHeartbeats 1000000

namespace AAUGeo

/-- The no-data sentinel used throughout the pipeline (`-9999`). -/
def noData : Int := -9999

/-! ## Rule engine (`rule_based_interpretation`)

Cluster statistics records are Python dicts read with
`cluster_stats.get('mean_X', 0.0)`; we model the three fields the rule
engine reads as `Option ℚ`, with the same default of `0`.
-/

/-- The fields of one cluster-statistics record that
`rule_based_interpretation` reads.  A missing key is `none` and is read
with default `0`, exactly like Python's `dict.get(key, 0.0)`. -/
structure ClusterStats where
  mean_MNDWI : Option ℚ := none
  mean_NDVI : Option ℚ := none
  mean_NDBI : Option ℚ := none
deriving DecidableEq, Repr

/-- One interpretation entry: semantic label plus confidence (the
free-text rationale is presentation-only and not modelled). -/
structure InterpEntry where
  label : String
  confidence : ℚ
deriving DecidableEq, Repr

/-- Embedding of the `if/elif` chain in `rule_based_interpretation`
(src/logic/classify_python_kmeans.py, lines 626-654). -/
def ruleBasedEntry (cs : ClusterStats) : InterpEntry :=
  let mean_mndwi := cs.mean_MNDWI.getD 0
  let mean_ndvi := cs.mean_NDVI.getD 0
  let mean_ndbi := cs.mean_NDBI.getD 0
  if mean_mndwi > 0.3 then ⟨"Water", 0.8⟩
  else if mean_ndvi > 0.6 then ⟨"Forest", 0.75⟩
  else if 0.3 ≤ mean_ndvi ∧ mean_ndvi ≤ 0.6 then ⟨"Grassland", 0.7⟩
  else if mean_ndbi > 0.2 then ⟨"Built-up", 0.75⟩
  else if mean_ndvi < 0.1 ∧ mean_mndwi < 0 then ⟨"Bare soil/rock", 0.7⟩
  else ⟨"Unknown", 0.5⟩

/-- Embedding of `rule_based_interpretation`: it maps every
cluster-statistics record (keyed by cluster id) to its rule-based
interpretation entry. -/
def rule_based_interpretation (stats : List (Nat × ClusterStats)) :
    List (Nat × InterpEntry) :=
  stats.map (fun p => (p.1, ruleBasedEntry p.2))

/-- The ordered rule table as the SPEC states it: a priority list of
(condition, label, confidence) rows, first match wins, default
`Unknown`/0.5.  Written from the spec's words, to be compared with the
source-derived `ruleBasedEntry`. -/
def specRuleTable (mndwi ndvi ndbi : ℚ) : List (Bool × InterpEntry) :=
  [ (decide (mndwi > 0.3), ⟨"Water", 0.8⟩),
    (decide (ndvi > 0.6), ⟨"Forest", 0.75⟩),
    (decide (0.3 ≤ ndvi ∧ ndvi ≤ 0.6), ⟨"Grassland", 0.7⟩),
    (decide (ndbi > 0.2), ⟨"Built-up", 0.75⟩),
    (decide (ndvi < 0.1 ∧ mndwi < 0), ⟨"Bare soil/rock", 0.7⟩) ]

/-- First-match-wins evaluation of an ordered rule table, defaulting to
`Unknown` with confidence 0.5 when no rule matches. -/
def firstMatch : List (Bool × InterpEntry) → InterpEntry
  | [] => ⟨"Unknown", 0.5⟩
  | (c, e) :: rest => if c then e else firstMatch rest

/-- First-match-wins evaluation of the spec's ordered rule table. -/
def specFirstMatch (mndwi ndvi ndbi : ℚ) : InterpEntry :=
  firstMatch (specRuleTable mndwi ndvi ndbi)

/-- C1: the rule engine assigns labels by the first matching rule of the
fixed priority order MNDWI > 0.3 → Water (0.8); NDVI > 0.6 → Forest
(0.75); 0.3 ≤ NDVI ≤ 0.6 → Grassland (0.7); NDBI > 0.2 → Built-up
(0.75); NDVI < 0.1 ∧ MNDWI < 0 → Bare soil/rock (0.7); otherwise
Unknown (0.5) — i.e. it agrees with the spec's first-match rule table on
every input — and, in particular, a cluster with mean_MNDWI = 0.35 and
mean_NDVI = 0.05 is labeled "Water" with confidence 0.8. -/
theorem rule_engine_first_match :
    (∀ cs : ClusterStats,
        ruleBasedEntry cs =
          specFirstMatch (cs.mean_MNDWI.getD 0) (cs.mean_NDVI.getD 0)
            (cs.mean_NDBI.getD 0)) ∧
    rule_based_interpretation
        [(0, { mean_MNDWI := some 0.35, mean_NDVI := some 0.05 })] =
      [(0, ⟨"Water", 0.8⟩)] := by
  constructor
  · intro cs
    simp only [ruleBasedEntry, specFirstMatch, specRuleTable, firstMatch,
      decide_eq_true_eq]
  · norm_num [rule_based_interpretation, ruleBasedEntry]

/-! ## JSON values and a model of Python's `json.loads`

`interpret_clusters_with_llm` extracts a substring with
`re.search(r'\x7b.*\x7d', response, re.DOTALL)` and feeds it to the
strict stdlib parser `json.loads`.  We model JSON values with exact
rational numbers (the nonstandard `NaN`/`Infinity` extensions of the
Python parser are not modelled) and implement the strict grammar:
double-quoted strings only, no trailing commas, no single quotes. -/

/-- JSON values; numbers are modelled as exact rationals. -/
inductive Json where
  | null : Json
  | bool (b : Bool) : Json
  | num (q : ℚ) : Json
  | str (s : String) : Json
  | arr (xs : List Json) : Json
  | obj (fields : List (String × Json)) : Json
deriving Repr

/-- The opening-brace character. -/
def braceOpen : Char := Char.ofNat 123

/-- The closing-brace character. -/
def braceClose : Char := Char.ofNat 125

/-- The double-quote character. -/
def dquote : Char := Char.ofNat 34

/-- The single-quote character. -/
def squote : Char := Char.ofNat 39

/-- The backslash character. -/
def backslash : Char := Char.ofNat 92

/-- JSON / Python `\s` whitespace (space, tab, LF, CR, VT, FF). -/
def isWsChar (c : Char) : Bool :=
  c = ' ' || c = Char.ofNat 9 || c = Char.ofNat 10 || c = Char.ofNat 13 ||
  c = Char.ofNat 11 || c = Char.ofNat 12

/-- Drop leading whitespace. -/
def skipWs (cs : List Char) : List Char := cs.dropWhile isWsChar

/-- Numeric value of a decimal digit run. -/
def digitsVal (ds : List Char) : Nat :=
  ds.foldl (fun a c => a * 10 + (c.toNat - 48)) 0

/-- Value of a hex digit, if any. -/
def hexVal (c : Char) : Option Nat :=
  if c.isDigit then some (c.toNat - 48)
  else if 97 ≤ c.toNat ∧ c.toNat ≤ 102 then some (c.toNat - 87)
  else if 65 ≤ c.toNat ∧ c.toNat ≤ 70 then some (c.toNat - 55)
  else none

/-- Parse the exponent suffix (`e`/`E` sign? digits) of a JSON number;
returns the signed exponent and the remaining input. -/
def parseExponent (cs : List Char) : Option (Int × List Char) :=
  match cs with
  | c :: rest =>
    if c = 'e' ∨ c = 'E' then
      let (esign, r1) : Bool × List Char :=
        match rest with
        | s :: r2 => if s = '-' then (true, r2)
                     else if s = '+' then (false, r2)
                     else (false, s :: r2)
        | [] => (false, [])
      let (eds, r2) := r1.span Char.isDigit
      if eds.isEmpty then none
      else some (if esign then -(digitsVal eds : Int) else (digitsVal eds : Int), r2)
    else some (0, c :: rest)
  | [] => some (0, [])

/-- Parse the fraction suffix (`.` digits) of a JSON number. -/
def parseFraction (cs : List Char) : Option (ℚ × List Char) :=
  match cs with
  | c :: rest =>
    if c = '.' then
      let (fds, r1) := rest.span Char.isDigit
      if fds.isEmpty then none
      else some ((digitsVal fds : ℚ) / (10 : ℚ) ^ fds.length, r1)
    else some (0, c :: rest)
  | [] => some (0, [])

/-- Parse a JSON number (strict grammar: optional minus, integer part
with no leading zero, optional fraction, optional exponent). -/
def parseNumber (cs : List Char) : Option (ℚ × List Char) :=
  let (neg, cs1) : Bool × List Char :=
    match cs with
    | c :: rest => if c = '-' then (true, rest) else (false, c :: rest)
    | [] => (false, [])
  let (ds, cs2) := cs1.span Char.isDigit
  if ds.isEmpty then none
  else if 1 < ds.length ∧ ds.headD '0' = '0' then none
  else
    match parseFraction cs2 with
    | none => none
    | some (frac, cs3) =>
      match parseExponent cs3 with
      | none => none
      | some (ex, cs4) =>
        let base : ℚ := (digitsVal ds : ℚ) + frac
        let scaled : ℚ :=
          if 0 ≤ ex then base * (10 : ℚ) ^ ex.toNat else base / (10 : ℚ) ^ (-ex).toNat
        some (if neg then -scaled else scaled, cs4)

/-- Parse the body of a strict JSON string (after the opening quote),
with fuel.  Rejects unescaped control characters and bad escapes, as
Python's `json.loads` does. -/
def parseStringBody : Nat → List Char → Option (List Char × List Char)
  | 0, _ => none
  | _ + 1, [] => none
  | fuel + 1, c :: rest =>
    if c = dquote then some ([], rest)
    else if c = backslash then
      match rest with
      | e :: r2 =>
        if e = 'u' then
          match r2 with
          | a :: b :: cch :: d :: r3 =>
            match hexVal a, hexVal b, hexVal cch, hexVal d with
            | some va, some vb, some vc, some vd =>
              (parseStringBody fuel r3).map
                (fun p => (Char.ofNat (((va * 16 + vb) * 16 + vc) * 16 + vd) :: p.1, p.2))
            | _, _, _, _ => none
          | _ => none
        else
          let esc : Option Char :=
            if e = dquote then some dquote
            else if e = backslash then some backslash
            else if e = '/' then some '/'
            else if e = 'b' then some (Char.ofNat 8)
            else if e = 'f' then some (Char.ofNat 12)
            else if e = 'n' then some (Char.ofNat 10)
            else if e = 'r' then some (Char.ofNat 13)
            else if e = 't' then some (Char.ofNat 9)
            else none
          match esc with
          | some ch => (parseStringBody fuel r2).map (fun p => (ch :: p.1, p.2))
          | none => none
      | [] => none
    else if c.toNat < 32 then none
    else (parseStringBody fuel rest).map (fun p => (c :: p.1, p.2))

mutual

/-- Parse one strict JSON value (with fuel). -/
def parseValue : Nat → List Char → Option (Json × List Char)
  | 0, _ => none
  | fuel + 1, input =>
    match skipWs input with
    | [] => none
    | c :: rest =>
      if c = 'n' then
        match rest with
        | 'u' :: 'l' :: 'l' :: r2 => some (Json.null, r2)
        | _ => none
      else if c = 't' then
        match rest with
        | 'r' :: 'u' :: 'e' :: r2 => some (Json.bool true, r2)
        | _ => none
      else if c = 'f' then
        match rest with
        | 'a' :: 'l' :: 's' :: 'e' :: r2 => some (Json.bool false, r2)
        | _ => none
      else if c = dquote then
        (parseStringBody (rest.length + 1) rest).map
          (fun p => (Json.str (String.mk p.1), p.2))
      else if c = braceOpen then
        (parseObjItems fuel rest true).map (fun p => (Json.obj p.1, p.2))
      else if c = '[' then
        (parseArrItems fuel rest true).map (fun p => (Json.arr p.1, p.2))
      else if c = '-' ∨ c.isDigit then
        (parseNumber (c :: rest)).map (fun p => (Json.num p.1, p.2))
      else none

/-- Parse the items of a JSON array after `[` (with fuel); `first` is
true when no item has been consumed yet, so `]` may follow at once.
A comma must be followed by a further item: trailing commas fail. -/
def parseArrItems : Nat → List Char → Bool → Option (List Json × List Char)
  | 0, _, _ => none
  | fuel + 1, input, first =>
    match skipWs input with
    | [] => none
    | c :: rest =>
      if first ∧ c = ']' then some ([], rest)
      else
        match parseValue fuel (c :: rest) with
        | none => none
        | some (v, r1) =>
          match skipWs r1 with
          | ']' :: r2 => some ([v], r2)
          | ',' :: r2 =>
            (parseArrItems fuel r2 false).map (fun p => (v :: p.1, p.2))
          | _ => none

/-- Parse the members of a JSON object after an opening brace (with
fuel); keys must be double-quoted strings and trailing commas fail. -/
def parseObjItems : Nat → List Char → Bool → Option (List (String × Json) × List Char)
  | 0, _, _ => none
  | fuel + 1, input, first =>
    match skipWs input with
    | [] => none
    | c :: rest =>
      if first ∧ c = braceClose then some ([], rest)
      else if c = dquote then
        match parseStringBody (rest.length + 1) rest with
        | none => none
        | some (key, r1) =>
          match skipWs r1 with
          | ':' :: r2 =>
            match parseValue fuel r2 with
            | none => none
            | some (v, r3) =>
              match skipWs r3 with
              | ',' :: r4 =>
                (parseObjItems fuel r4 false).map
                  (fun p => ((String.mk key, v) :: p.1, p.2))
              | cc :: r4 =>
                if cc = braceClose then some ([(String.mk key, v)], r4) else none
              | [] => none
          | _ => none
      else none

end

/-- Model of Python `json.loads`: parse exactly one strict JSON value
surrounded by optional whitespace; `none` models a raised
`JSONDecodeError`. -/
def json_loads (s : String) : Option Json :=
  match parseValue (2 * s.length + 4) s.data with
  | some (v, rest) => if skipWs rest = [] then some v else none
  | none => none

/-- Model of `re.search(r'\x7b.*\x7d', response, re.DOTALL)`: the greedy
match runs from the FIRST opening brace to the LAST closing brace (it
matches exactly when the last closing brace lies after the first opening
brace); this is not the first balanced-brace object. -/
def extractBraces (s : String) : Option String :=
  let cs := s.data
  match cs.findIdx? (fun c => c = braceOpen), cs.reverse.findIdx? (fun c => c = braceClose) with
  | some i, some jr =>
    let j := cs.length - 1 - jr
    if i < j then some (String.mk ((cs.drop i).take (j - i + 1))) else none
  | _, _ => none

/-! ## `fix_json` and `parse_llm_response` (src/logic/llm_prompt.py)

`fix_json` performs two bounded regex substitutions: strip trailing
commas (`,\s*` before a closing brace/bracket) and normalize
single-quoted keys/values to double quotes.  `parse_llm_response`
extracts the greedy brace substring, tries a strict parse, and on
failure retries after `fix_json`.  Neither function is called by the
classification pipeline. -/

/-- `re.sub` of a comma followed by optional whitespace and `close`,
replaced by `close` alone, scanning left to right, non-overlapping. -/
def subTrailingComma (close : Char) : Nat → List Char → List Char
  | 0, cs => cs
  | _ + 1, [] => []
  | fuel + 1, c :: rest =>
    if c = ',' then
      match
        (match rest.dropWhile isWsChar with
         | d :: r2 => if d = close then some r2 else none
         | [] => none) with
      | some r2 => close :: subTrailingComma close fuel r2
      | none => ',' :: subTrailingComma close fuel rest
    else c :: subTrailingComma close fuel rest

/-- Split a char list at the next single quote: the run of non-quote
characters and the remainder after the quote, if a quote occurs. -/
def splitAtSQuote (cs : List Char) : Option (List Char × List Char) :=
  let p := cs.span (fun c => c ≠ squote)
  match p.2 with
  | _ :: after => some (p.1, after)
  | [] => none

/-- `re.sub(r"'([^']*)':", '"\1":', s)`: single-quoted object keys
become double-quoted. -/
def subQuoteKey : Nat → List Char → List Char
  | 0, cs => cs
  | _ + 1, [] => []
  | fuel + 1, c :: rest =>
    if c = squote then
      match splitAtSQuote rest with
      | some (content, after) =>
        match after with
        | a :: r2 =>
          if a = ':' then dquote :: (content ++ dquote :: ':' :: subQuoteKey fuel r2)
          else squote :: subQuoteKey fuel rest
        | [] => squote :: subQuoteKey fuel rest
      | none => squote :: subQuoteKey fuel rest
    else c :: subQuoteKey fuel rest

/-- `re.sub(r":\s*'([^']*)'", ': "\1"', s)`: single-quoted values after
a colon become double-quoted (whitespace collapsed to one space). -/
def subQuoteVal : Nat → List Char → List Char
  | 0, cs => cs
  | _ + 1, [] => []
  | fuel + 1, c :: rest =>
    if c = ':' then
      match (rest.dropWhile isWsChar) with
      | q :: r2 =>
        if q = squote then
          match splitAtSQuote r2 with
          | some (content, after) =>
            ':' :: ' ' :: dquote :: (content ++ dquote :: subQuoteVal fuel after)
          | none => ':' :: subQuoteVal fuel rest
        else ':' :: subQuoteVal fuel rest
      | [] => ':' :: subQuoteVal fuel rest
    else c :: subQuoteVal fuel rest

/-- Embedding of `fix_json`: strip trailing commas before closing
braces/brackets, then normalize single-quoted keys and values. -/
def fix_json (s : String) : String :=
  let s1 := subTrailingComma braceClose (s.data.length + 1) s.data
  let s2 := subTrailingComma ']' (s1.length + 1) s1
  let s3 := subQuoteKey (s2.length + 1) s2
  String.mk (subQuoteVal (s3.length + 1) s3)

/-- Embedding of `parse_llm_response` (src/logic/llm_prompt.py, lines
60-89): extract the greedy brace substring, parse strictly, on failure
retry after `fix_json`; without a brace substring parse the whole
response.  `none` models a raised error. -/
def parse_llm_response (s : String) : Option Json :=
  match extractBraces s with
  | some js =>
    match json_loads js with
    | some j => some j
    | none => json_loads (fix_json js)
  | none => json_loads s

/-! ## `interpret_clusters_with_llm` (classify_python_kmeans.py, 566-613)

The remote call (`LLMClient.generate`) performs network I/O; its outcome
is modelled as an explicit `Except String (Option String)` argument:
`.error` is a raised exception (network error, timeout, unknown
provider), `.ok none` / `.ok (some "")` are the falsy responses.  The
function returns either the parsed JSON verbatim (`.inl`) or the
rule-based fallback (`.inr`), matching the two kinds of dict the Python
function can return. -/

/-- The `llm_config` dictionary fields read by the pipeline, with the
defaults used at the call sites. -/
structure LLMConfig where
  enabled : Bool := false
  provider : String := "Ollama"
  base_url : String := "http://localhost:11434"
  api_key : String := ""
  model : String := "llama2"

/-- An interpretation mapping as produced by the rule engine. -/
abbrev Interp := List (Nat × InterpEntry)

/-- The result of cluster interpretation: parsed remote JSON or the
rule-based mapping. -/
abbrev InterpResult := Json ⊕ Interp

/-- `llm_config and llm_config.get('enabled', False)`: `none` models a
falsy/absent config dict. -/
def cfgEnabled : Option LLMConfig → Bool
  | none => false
  | some c => c.enabled

/-- Embedding of `interpret_clusters_with_llm`: disabled config, raised
client exception, falsy response, missing brace substring, or strict
parse failure all fall back to `rule_based_interpretation`; a successful
strict parse of the greedy brace substring is returned verbatim. -/
def interpret_clusters_with_llm (stats : List (Nat × ClusterStats))
    (cfg : Option LLMConfig) (remote : Except String (Option String)) :
    InterpResult :=
  if cfgEnabled cfg = false then .inr (rule_based_interpretation stats)
  else
    match remote with
    | .error _ => .inr (rule_based_interpretation stats)
    | .ok none => .inr (rule_based_interpretation stats)
    | .ok (some response) =>
      if response = "" then .inr (rule_based_interpretation stats)
      else
        match extractBraces response with
        | some js =>
          match json_loads js with
          | some j => .inl j
          | none => .inr (rule_based_interpretation stats)
        | none => .inr (rule_based_interpretation stats)

/-- Python truthiness of a JSON value (empty dict/list/string, zero and
null are falsy). -/
def jsonTruthy : Json → Bool
  | .null => false
  | .bool b => b
  | .num q => decide (q ≠ 0)
  | .str s => decide (s ≠ "")
  | .arr xs => !xs.isEmpty
  | .obj fs => !fs.isEmpty

/-- Python truthiness of the `llm_result` argument of
`create_interpreted_layer` (`None` is falsy, dicts by emptiness). -/
def resultTruthy : Option InterpResult → Bool
  | none => false
  | some (.inl j) => jsonTruthy j
  | some (.inr l) => !l.isEmpty

/-- The `interpretation_method` field written by
`create_interpreted_layer` (lines 667-670 replace a falsy `llm_result`
by `\x7b\x7d`, line 706 then writes `"LLM" if llm_result else
"Rule-based"`): the net effect is `"LLM"` exactly when the argument was
truthy. -/
def interpretation_method (llm_result : Option InterpResult) : String :=
  if resultTruthy llm_result then "LLM" else "Rule-based"

/-- C2: whenever the remote interpretation fails — raised client
exception, `None`/empty response, or a response whose extracted brace
substring does not parse — `interpret_clusters_with_llm` returns exactly
`rule_based_interpretation` of the same stats and never propagates the
error. -/
theorem llm_failure_fallback_equiv
    (stats : List (Nat × ClusterStats)) (cfg : Option LLMConfig) :
    (∀ e, interpret_clusters_with_llm stats cfg (.error e) =
        .inr (rule_based_interpretation stats)) ∧
    interpret_clusters_with_llm stats cfg (.ok none) =
        .inr (rule_based_interpretation stats) ∧
    interpret_clusters_with_llm stats cfg (.ok (some "")) =
        .inr (rule_based_interpretation stats) ∧
    (∀ s, ((extractBraces s).bind json_loads).isNone = true →
      interpret_clusters_with_llm stats cfg (.ok (some s)) =
        .inr (rule_based_interpretation stats)) := by
  refine ⟨fun e => ?_, ?_, ?_, fun s hs => ?_⟩ <;>
    by_cases h : cfgEnabled cfg = false <;>
      simp [interpret_clusters_with_llm, h]
  · intro hne
    cases hex : extractBraces s with
    | none => simp
    | some js =>
      cases hj : json_loads js with
      | none => simp [hj]
      | some j => simp [hex, hj] at hs

/-- Witness for C2: a concrete enabled config and a response whose
brace substring is unparsable JSON fall back to the rule engine. -/
theorem llm_failure_fallback_equiv_witness :
    interpret_clusters_with_llm [] (some { enabled := true })
        (.ok (some "Sure! \x7b'cluster_0': 1,\x7d")) =
      .inr (rule_based_interpretation []) :=
  (llm_failure_fallback_equiv [] (some { enabled := true })).2.2.2
    "Sure! \x7b'cluster_0': 1,\x7d" (by rfl)

/-- C9 counterexample: a remote response whose ONLY malformation is
single quotes — `fix_json` repairs it into exactly the intended object,
as the second conjunct shows — is NOT parsed successfully by the
interpretation step: `interpret_clusters_with_llm` applies no repair
pass and falls back to the rule engine, contradicting the claim that
such responses parse successfully. -/
theorem repair_not_applied_cex :
    interpret_clusters_with_llm [(0, { mean_MNDWI := some 0.35 })]
        (some { enabled := true })
        (.ok (some "\x7b'cluster_0': \x7b'label': 'Water'\x7d\x7d")) =
      .inr (rule_based_interpretation [(0, { mean_MNDWI := some 0.35 })]) ∧
    json_loads (fix_json "\x7b'cluster_0': \x7b'label': 'Water'\x7d\x7d") =
      some (Json.obj [("cluster_0", Json.obj [("label", Json.str "Water")])]) := by
  exact ⟨rfl, rfl⟩

/-- C9 amended: the interpretation step applies NO repair pass — its
result is fully determined by the strict parse of the greedy
first-brace-to-last-brace substring, any parse failure falling back to
the rule engine — while the best-effort repair (`fix_json`) is applied
only by the helper `parse_llm_response`, which retries the repaired
substring exactly when the strict parse fails (and which the pipeline
never calls). -/
theorem no_repair_in_interpret_step :
    (∀ (stats : List (Nat × ClusterStats)) (cfg : Option LLMConfig) (s : String),
      cfgEnabled cfg = true → s ≠ "" →
      interpret_clusters_with_llm stats cfg (.ok (some s)) =
        (match (extractBraces s).bind json_loads with
         | some j => .inl j
         | none => .inr (rule_based_interpretation stats))) ∧
    (∀ (s js : String), extractBraces s = some js → json_loads js = none →
      parse_llm_response s = json_loads (fix_json js)) := by
  constructor
  · intro stats cfg s hcfg hne
    simp only [interpret_clusters_with_llm, hcfg]
    simp only [Bool.true_eq_false, if_false, if_neg hne]
    cases hex : extractBraces s with
    | none => simp
    | some js => cases hj : json_loads js with
      | none => simp [hj]
      | some j => simp [hj]
  · intro s js hex hj
    simp [parse_llm_response, hex, hj]

/-- Witness for the amended C9: at a concrete trailing-comma response
the interpretation step's result is the strict-parse outcome (here the
rule fallback), and `parse_llm_response` on the same response is the
parse of the repaired substring. -/
theorem no_repair_in_interpret_step_witness :
    interpret_clusters_with_llm [] (some { enabled := true })
        (.ok (some "\x7b\"a\": 1,\x7d")) =
      (match (extractBraces "\x7b\"a\": 1,\x7d").bind json_loads with
       | some j => .inl j
       | none => .inr (rule_based_interpretation [])) ∧
    parse_llm_response "\x7b\"a\": 1,\x7d" =
      json_loads (fix_json "\x7b\"a\": 1,\x7d") :=
  ⟨no_repair_in_interpret_step.1 [] (some { enabled := true })
      "\x7b\"a\": 1,\x7d" rfl (by simp),
   no_repair_in_interpret_step.2 "\x7b\"a\": 1,\x7d" "\x7b\"a\": 1,\x7d"
      rfl rfl⟩

/-- C8 (code bug): with LLM interpretation enabled in the pipeline but
the remote call disabled in `llm_config`, the interpretation is
produced by the rule engine (here a single `Unknown` cluster), yet the
`interpretation_method` field written to `interpretation_report.json`
is `"LLM"`: the truthiness test `"LLM" if llm_result else "Rule-based"`
cannot distinguish a rule-based fallback dict from a parsed remote
one. -/
theorem report_method_mislabels_fallback :
    interpret_clusters_with_llm [(0, ({ } : ClusterStats))]
        (some { enabled := false }) (.error "never attempted") =
      .inr (rule_based_interpretation [(0, ({ } : ClusterStats))]) ∧
    rule_based_interpretation [(0, ({ } : ClusterStats))] =
      [(0, ⟨"Unknown", 0.5⟩)] ∧
    interpretation_method
        (some (interpret_clusters_with_llm [(0, ({ } : ClusterStats))]
          (some { enabled := false }) (.error "never attempted"))) = "LLM" := by
  refine ⟨rfl, ?_, rfl⟩
  norm_num [rule_based_interpretation, ruleBasedEntry]

/-! ## ROI handling in `resample_bands` (classify_python_kmeans.py, 213-241)

The head of `resample_bands` selects the target extent from the ROI and
converts it to pixel counts via `int((max - min) / target_resolution)`
with `target_resolution = 10.0`.  There is no validity check of any
kind on the extent: the function proceeds directly into the conversion
for every ROI. -/

/-- An axis-aligned extent (QgsRectangle). -/
structure Extent where
  xMin : ℚ
  xMax : ℚ
  yMin : ℚ
  yMax : ℚ
deriving Repr

/-- The four ROI variants plus the `else` default of the source's
dispatch.  `polygon` carries its bounding box, `mask` the mask layer's
extent. -/
inductive ROI where
  | full : ROI
  | rectangle (geom : Extent) : ROI
  | polygon (boundingBox : Extent) : ROI
  | mask (layerExtent : Extent) : ROI
  | other : ROI

/-- Extent selection at the top of `resample_bands`. -/
def roiExtent (roi : ROI) (layerExtent : Extent) : Extent :=
  match roi with
  | .full => layerExtent
  | .rectangle geom => geom
  | .polygon bb => bb
  | .mask me => me
  | .other => layerExtent

/-- Python `int(...)`: truncation toward zero. -/
def pyInt (q : ℚ) : Int := if 0 ≤ q then ⌊q⌋ else ⌈q⌉

/-- The resolution-to-pixel-count conversion of `resample_bands`
(lines 230-234): `width = int((xMax - xMin) / 10)` and likewise for
height.  This is the first computation on the selected extent; no
error can be raised before or by it. -/
def resampleTargetSize (roi : ROI) (layerExtent : Extent) : Int × Int :=
  let e := roiExtent roi layerExtent
  (pyInt ((e.xMax - e.xMin) / 10), pyInt ((e.yMax - e.yMin) / 10))

/-- C3 (code bug): a zero-area rectangle ROI does NOT abort with an
InvalidROI error — `resample_bands` has no validity check at all and
proceeds straight into the resolution-to-pixel-count conversion,
computing a degenerate 0×0 target size and carrying on to the per-band
warp. -/
theorem degenerate_roi_no_invalid_roi_error :
    resampleTargetSize (ROI.rectangle ⟨0, 0, 0, 0⟩) ⟨0, 100, 0, 100⟩ = (0, 0) := by
  norm_num [resampleTargetSize, roiExtent, pyInt]

/-! ## `reshape_labels_safe` (classify_python_kmeans.py, 439-471)

The function computes `valid_count` from the ORIGINAL mask, then
truncates/pads the mask to the grid's pixel count, fits the label
vector to `valid_count`, and finally performs the NumPy boolean-mask
assignment `labels_reshaped[valid_mask] = labels`.  NumPy raises a
`ValueError` when the value count matches neither the adjusted mask's
True-count nor 1 (broadcast); `none` models that exception. -/

/-- Number of `true` entries of a boolean mask (np.sum). -/
def countTrue (mask : List Bool) : Nat := mask.count true

/-- Truncate or right-pad (with `false`) a mask to the given length
(lines 448-457). -/
def adjustMask (mask : List Bool) (total : Nat) : List Bool :=
  if total < mask.length then mask.take total
  else mask ++ List.replicate (total - mask.length) false

/-- Truncate or right-pad (with the sentinel) the label vector to the
valid count (lines 461-466). -/
def fitLabels (labels : List Int) (validCount : Nat) : List Int :=
  if validCount < labels.length then labels.take validCount
  else if labels.length < validCount then
    labels ++ List.replicate (validCount - labels.length) (-9999)
  else labels

/-- Walk the base array and the mask together, writing the next value
at each `true` position (the success case of NumPy boolean-mask
assignment). -/
def placeVals : List Int → List Bool → List Int → List Int
  | [], _, _ => []
  | b :: bs, [], _ => b :: bs
  | b :: bs, m :: ms, vs =>
    if m then vs.headD (-9999) :: placeVals bs ms vs.tail
    else b :: placeVals bs ms vs

/-- NumPy boolean-mask assignment `base[mask] = vals`: succeeds when
the value count equals the mask's True-count, or broadcasts a single
value; otherwise raises (`none`). -/
def maskAssign (base : List Int) (mask : List Bool) (vals : List Int) :
    Option (List Int) :=
  let k := countTrue mask
  if vals.length = k then some (placeVals base mask vals)
  else if vals.length = 1 then
    some (placeVals base mask (List.replicate k (vals.headD (-9999))))
  else none

/-- Embedding of `reshape_labels_safe` on the row-major flat grid;
`none` models the NumPy `ValueError` escaping the function. -/
def reshape_labels_safe (labels : List Int) (shape : Nat × Nat)
    (valid_mask : List Bool) : Option (List Int) :=
  let total := shape.1 * shape.2
  let valid_count := countTrue valid_mask
  let mask := adjustMask valid_mask total
  let fitted := fitLabels labels valid_count
  maskAssign (List.replicate total (-9999)) mask fitted

/-- C7 (code bug): `reshape_labels_safe` CAN fail.  When the mask is
longer than the grid and its truncated tail contained valid pixels, the
label vector is fitted to the pre-truncation valid count, so the final
boolean-mask assignment raises a NumPy `ValueError` (first conjunct).
The truncate/pad policy does apply to a pure labels-vs-valid-count
mismatch (second conjunct: four labels, two valid pixels, grid of
four). -/
theorem reshape_labels_mismatch_raises :
    reshape_labels_safe [0, 1, 2] (1, 2) [true, true, true] = none ∧
    reshape_labels_safe [0, 1, 2, 3] (2, 2) [true, false, true, false] =
      some [0, -9999, 1, -9999] := by
  exact ⟨by decide, by decide⟩

/-! ## Protected index computation in `calculate_features`
(classify_python_kmeans.py, 353-387)

Each index is `np.divide(a - b, a + b + 1e-10, out=zeros,
where=(a + b) != 0)`: pixels with raw denominator exactly zero keep the
prefilled 0, all others get the epsilon-protected quotient. -/

/-- Per-pixel protected normalized difference of two band values. -/
def protectedIndex (a b : ℚ) : ℚ :=
  if a + b = 0 then 0 else (a - b) / (a + b + 1e-10)

/-- NDVI = (B8 - B4) / (B8 + B4), protected. -/
def ndviAt (b8 b4 : ℚ) : ℚ := protectedIndex b8 b4

/-- MNDWI = (B3 - B11) / (B3 + B11), protected. -/
def mndwiAt (b3 b11 : ℚ) : ℚ := protectedIndex b3 b11

/-- NDBI = (B11 - B8) / (B11 + B8), protected. -/
def ndbiAt (b11 b8 : ℚ) : ℚ := protectedIndex b11 b8

/-- Bounds of the protected quotient for nonnegative band values. -/
theorem protectedIndex_bounds (a b : ℚ) (ha : 0 ≤ a) (hb : 0 ≤ b) :
    -1 ≤ protectedIndex a b ∧ protectedIndex a b ≤ 1 := by
  unfold protectedIndex
  split_ifs with h
  · norm_num
  · have hab : 0 < a + b := lt_of_le_of_ne (by linarith) (Ne.symm h)
    have heps : (0 : ℚ) < 1e-10 := by norm_num
    have hd : 0 < a + b + 1e-10 := by linarith
    constructor
    · rw [le_div_iff₀ hd]
      linarith
    · rw [div_le_one hd]
      linarith

/-- C4: each derived index uses the additive epsilon `1e-10` in the
denominator (second conjunct), equals exactly 0 whenever the raw
denominator is exactly zero (first conjunct), and lies in `[-1, 1]` for
nonnegative band values (third conjunct — reflectance inputs are
nonnegative; with a negative band value the epsilon-shifted quotient
can exceed the bounds, which is the degenerate case the spec
excludes). -/
theorem derived_index_props (x y : ℚ) :
    (x + y = 0 → ndviAt x y = 0 ∧ mndwiAt x y = 0 ∧ ndbiAt x y = 0) ∧
    (x + y ≠ 0 →
      ndviAt x y = (x - y) / (x + y + 1e-10) ∧
      mndwiAt x y = (x - y) / (x + y + 1e-10) ∧
      ndbiAt x y = (x - y) / (x + y + 1e-10)) ∧
    (0 ≤ x → 0 ≤ y →
      (-1 ≤ ndviAt x y ∧ ndviAt x y ≤ 1) ∧
      (-1 ≤ mndwiAt x y ∧ mndwiAt x y ≤ 1) ∧
      (-1 ≤ ndbiAt x y ∧ ndbiAt x y ≤ 1)) := by
  refine ⟨fun h => ?_, fun h => ?_, fun hx hy => ?_⟩
  · simp [ndviAt, mndwiAt, ndbiAt, protectedIndex, h]
  · simp [ndviAt, mndwiAt, ndbiAt, protectedIndex, h]
  · exact ⟨protectedIndex_bounds x y hx hy, protectedIndex_bounds x y hx hy,
      protectedIndex_bounds x y hx hy⟩

/-- Witness for C4 at concrete band values: NDVI of (0.8, 0.1) is the
epsilon-protected quotient and lies in `[-1, 1]`; NDVI of (0, 0) is
exactly 0. -/
theorem derived_index_props_witness :
    ndviAt 0.8 0.1 = (0.8 - 0.1) / (0.8 + 0.1 + 1e-10) ∧
    ndviAt 0 0 = 0 ∧
    -1 ≤ ndviAt 0.8 0.1 ∧ ndviAt 0.8 0.1 ≤ 1 :=
  ⟨((derived_index_props 0.8 0.1).2.1 (by norm_num)).1,
   ((derived_index_props 0 0).1 (by norm_num)).1,
   (((derived_index_props 0.8 0.1).2.2 (by norm_num) (by norm_num)).1).1,
   (((derived_index_props 0.8 0.1).2.2 (by norm_num) (by norm_num)).1).2⟩

/-! ## `apply_majority_filter` (classify_python_kmeans.py, 474-498)

`scipy.ndimage.generic_filter(labels, f, size=3, mode='constant',
cval=-9999)` hands `f` the 3×3 window around each pixel, positions
outside the grid filled with the constant `-9999`; `f` drops the
no-data values and returns `scipy.stats.mode` of the rest (the most
frequent value, smallest on ties), or `-9999` when nothing remains. -/

/-- Grid access with the constant no-data fill outside the bounds
(`mode='constant', cval=-9999`). -/
def getPad (h w : Nat) (g : Nat → Nat → Int) (i j : Int) : Int :=
  if 0 ≤ i ∧ i < (h : Int) ∧ 0 ≤ j ∧ j < (w : Int) then g i.toNat j.toNat
  else -9999

/-- The 3×3 window around pixel `(i, j)`, row-major. -/
def window (h w : Nat) (g : Nat → Nat → Int) (i j : Nat) : List Int :=
  [ getPad h w g ((i : Int) - 1) ((j : Int) - 1),
    getPad h w g ((i : Int) - 1) (j : Int),
    getPad h w g ((i : Int) - 1) ((j : Int) + 1),
    getPad h w g (i : Int) ((j : Int) - 1),
    getPad h w g (i : Int) (j : Int),
    getPad h w g (i : Int) ((j : Int) + 1),
    getPad h w g ((i : Int) + 1) ((j : Int) - 1),
    getPad h w g ((i : Int) + 1) (j : Int),
    getPad h w g ((i : Int) + 1) ((j : Int) + 1) ]

/-- One comparison step of `scipy.stats.mode`: keep the candidate with
the larger count, the smaller value on equal counts.  Counts are taken
in the fixed list `l`. -/
def modeStep (l : List Int) (best u : Int) : Int :=
  if l.count best < l.count u ∨ (l.count u = l.count best ∧ u < best) then u
  else best

/-- `scipy.stats.mode` of a list: the most frequent value, smallest on
ties (`-9999` only for the empty list, which the caller screens out). -/
def modeSmallest (l : List Int) : Int :=
  match l with
  | [] => -9999
  | v :: vs => vs.foldl (modeStep l) v

/-- `values[values != -9999]`: the valid (voting) values of a window. -/
def validVals (values : List Int) : List Int :=
  values.filter (fun v => v ≠ -9999)

/-- The per-window function of `apply_majority_filter`: drop no-data
values, return the mode of the rest, or `-9999` when all were
no-data. -/
def majorityFunc (values : List Int) : Int :=
  if (validVals values).isEmpty then -9999 else modeSmallest (validVals values)

/-- Embedding of `apply_majority_filter`. -/
def apply_majority_filter (h w : Nat) (g : Nat → Nat → Int) :
    Nat → Nat → Int :=
  fun i j => majorityFunc (window h w g i j)

theorem foldl_modeStep_mem (l : List Int) :
    ∀ (vs : List Int) (acc : Int), vs.foldl (modeStep l) acc ∈ acc :: vs := by
  intro vs
  induction vs with
  | nil => intro acc; simp
  | cons u vs ih =>
    intro acc
    simp only [List.foldl_cons]
    have h1 := ih (modeStep l acc u)
    have h2 : modeStep l acc u = acc ∨ modeStep l acc u = u := by
      unfold modeStep; split_ifs <;> simp
    rcases h2 with h2 | h2 <;> rw [h2] at h1 ⊢ <;>
      rcases List.mem_cons.mp h1 with h | h <;> simp [h]

theorem foldl_modeStep_count (l : List Int) :
    ∀ (vs : List Int) (acc : Int),
      l.count acc ≤ l.count (vs.foldl (modeStep l) acc) ∧
      ∀ u ∈ vs, l.count u ≤ l.count (vs.foldl (modeStep l) acc) := by
  intro vs
  induction vs with
  | nil => intro acc; simp
  | cons u vs ih =>
    intro acc
    obtain ⟨ih1, ih2⟩ := ih (modeStep l acc u)
    have hacc : l.count acc ≤ l.count (modeStep l acc u) ∧
        l.count u ≤ l.count (modeStep l acc u) := by
      unfold modeStep
      split_ifs with hc
      · rcases hc with hc | hc
        · omega
        · omega
      · push_neg at hc
        omega
    refine ⟨le_trans hacc.1 ih1, ?_⟩
    intro x hx
    rcases List.mem_cons.mp hx with rfl | hx
    · exact le_trans hacc.2 ih1
    · exact ih2 x hx

/-- The mode of a nonempty list is an element of it with maximal
count. -/
theorem modeSmallest_spec (l : List Int) (h : l ≠ []) :
    modeSmallest l ∈ l ∧ ∀ v ∈ l, l.count v ≤ l.count (modeSmallest l) := by
  cases l with
  | nil => exact absurd rfl h
  | cons v vs =>
    constructor
    · exact foldl_modeStep_mem (v :: vs) vs v
    · intro x hx
      obtain ⟨h1, h2⟩ := foldl_modeStep_count (v :: vs) vs v
      rcases List.mem_cons.mp hx with rfl | hx
      · exact h1
      · exact h2 x hx

/-- C5: the majority filter replaces each pixel by the most frequent
label among the valid (non-no-data) values of its 3×3 window — the
output is a window label of maximal count; a pixel whose whole window
is no-data stays no-data; and every window position outside the grid
contributes the fixed no-data fill (no wrapping or reflection). -/
theorem majority_filter_props (h w : Nat) (g : Nat → Nat → Int) (i j : Nat) :
    ((∀ v ∈ window h w g i j, v = -9999) →
      apply_majority_filter h w g i j = -9999) ∧
    (validVals (window h w g i j) ≠ [] →
      apply_majority_filter h w g i j ∈ validVals (window h w g i j) ∧
      ∀ v ∈ validVals (window h w g i j),
        (validVals (window h w g i j)).count v ≤
          (validVals (window h w g i j)).count
            (apply_majority_filter h w g i j)) ∧
    (∀ a b : Int, (a < 0 ∨ (h : Int) ≤ a ∨ b < 0 ∨ (w : Int) ≤ b) →
      getPad h w g a b = -9999) := by
  refine ⟨fun hall => ?_, fun hne => ?_, fun a b hab => ?_⟩
  · have hnil : validVals (window h w g i j) = [] := by
      rw [validVals, List.filter_eq_nil_iff]
      intro v hv
      simp [hall v hv]
    unfold apply_majority_filter majorityFunc
    rw [hnil]
    rfl
  · have hspec := modeSmallest_spec (validVals (window h w g i j)) hne
    unfold apply_majority_filter majorityFunc
    cases hv : validVals (window h w g i j) with
    | nil => exact absurd hv hne
    | cons a as =>
      rw [hv] at hspec
      simpa using hspec
  · unfold getPad
    rw [if_neg]
    rintro ⟨h1, h2, h3, h4⟩
    rcases hab with hh | hh | hh | hh <;> omega

/-- A concrete 2×2 grid used to witness the majority filter theorem. -/
def exampleGrid : Nat → Nat → Int :=
  fun i j => if i = 0 then 0 else if j = 0 then 1 else -9999

/-- Witness for C5: at pixel (0,0) of `exampleGrid` the filter output
is a maximal-count valid window label; on an all-no-data grid the
pixel stays no-data. -/
theorem majority_filter_props_witness :
    apply_majority_filter 2 2 exampleGrid 0 0 ∈
      validVals (window 2 2 exampleGrid 0 0) ∧
    apply_majority_filter 2 2 (fun _ _ => -9999) 0 0 = -9999 :=
  ⟨((majority_filter_props 2 2 exampleGrid 0 0).2.1 (by decide)).1,
   (majority_filter_props 2 2 (fun _ _ => -9999) 0 0).1 (by decide)⟩

/-! ## `create_interpreted_layer` raster (classify_python_kmeans.py, 665-702)

The function builds `label_mapping` over `range(np.max(labels) + 1)` —
looking labels up in the interpretation result, defaulting to
`'Cluster <id>'` — and then executes
`for cluster_id, label_name in label_mapping.items():
interpreted[labels == cluster_id] = cluster_id` on a copy of the label
grid before writing it to `interpreted_layer.tif`. -/

/-- All pixel values of the grid, row-major (the array `np.max` ranges
over). -/
def pixelList (h w : Nat) (g : Nat → Nat → Int) : List Int :=
  (List.range h).flatMap (fun i => (List.range w).map (fun j => g i j))

/-- `np.max(labels)`: every label is a cluster id or `-9999`, so the
fold from `-9999` is the maximum of a nonempty grid. -/
def maxLabel (h w : Nat) (g : Nat → Nat → Int) : Int :=
  (pixelList h w g).foldl max (-9999)

/-- `range(np.max(labels) + 1)` as integers (empty when the maximum is
negative). -/
def clusterIds (h w : Nat) (g : Nat → Nat → Int) : List Int :=
  (List.range (maxLabel h w g + 1).toNat).map (fun n => (n : Int))

/-- Field lookup in a JSON object. -/
def jsonField (j : Json) (key : String) : Option Json :=
  match j with
  | .obj fs => (fs.find? (fun f => f.1 == key)).map (fun f => f.2)
  | _ => none

/-- The display label `create_interpreted_layer` picks for one cluster
id: the interpretation entry's label when present, else
`'Cluster <id>'`. -/
def labelNameFor (llm : Option InterpResult) (cid : Int) : String :=
  let dflt := "Cluster " ++ toString cid
  match llm with
  | none => dflt
  | some (.inr l) =>
    match l.find? (fun p => (p.1 : Int) == cid) with
    | some p => p.2.label
    | none => dflt
  | some (.inl j) =>
    match jsonField j ("cluster_" ++ toString cid) with
    | some e =>
      match jsonField e "label" with
      | some (.str s) => s
      | _ => dflt
    | none => dflt

/-- The `label_mapping` dict: one entry per id in
`range(np.max(labels) + 1)`, regardless of the interpretation. -/
def label_mapping (h w : Nat) (g : Nat → Nat → Int)
    (llm : Option InterpResult) : List (Int × String) :=
  (clusterIds h w g).map (fun cid => (cid, labelNameFor llm cid))

/-- The raster produced by `create_interpreted_layer`: a copy of the
label grid on which each mapping iteration executes
`interpreted[labels == cluster_id] = cluster_id`. -/
def create_interpreted_raster (h w : Nat) (g : Nat → Nat → Int)
    (llm : Option InterpResult) : Nat → Nat → Int :=
  (label_mapping h w g llm).foldl
    (fun acc p => fun i j => if g i j = p.1 then p.1 else acc i j) g

theorem foldl_assign_id (g : Nat → Nat → Int) :
    ∀ (l : List (Int × String)) (acc : Nat → Nat → Int) (i j : Nat),
      acc i j = g i j →
      (l.foldl (fun acc p => fun i j => if g i j = p.1 then p.1 else acc i j)
          acc) i j = g i j := by
  intro l
  induction l with
  | nil => intro acc i j hacc; simpa using hacc
  | cons p l ih =>
    intro acc i j hacc
    simp only [List.foldl_cons]
    apply ih
    by_cases hp : g i j = p.1
    · simp [hp]
    · simp [hp, hacc]

/-- C10: the raster written to `interpreted_layer.tif` is pixel-for-
pixel identical to the input label grid for every interpretation
result (remote, rule-based, or empty): each iteration of the mapping
loop writes a pixel's own value back, so interpretation affects only
the legend and report artifacts, never the raster. -/
theorem interpreted_raster_identity (h w : Nat) (g : Nat → Nat → Int)
    (llm : Option InterpResult) (i j : Nat) :
    create_interpreted_raster h w g llm i j = g i j :=
  foldl_assign_id g (label_mapping h w g llm) g i j rfl

/-! ## `remove_small_clusters` (classify_python_kmeans.py, 501-529)

`scipy.ndimage.label(labels != -9999)` labels the 4-connected components
of the is-labeled mask; the loop then blanks every component whose
pixel count is below `min_area_pixels`.  We model a component as the
bounded closure of single-step growth along masked 4-neighbours: after
`h*w` iterations the growth has provably reached its fixpoint, and the
resulting set is exactly the reachable set of the pixel. -/

/-- The is-labeled mask over in-bounds positions. -/
def maskOf (h w : Nat) (g : Nat → Nat → Int) (p : Fin h × Fin w) : Bool :=
  decide (g p.1 p.2 ≠ -9999)

/-- 4-connectivity (the default structuring element of
`scipy.ndimage.label`). -/
def adjacent {h w : Nat} (p q : Fin h × Fin w) : Bool :=
  (decide (p.1 = q.1) &&
    (decide (p.2.val + 1 = q.2.val) || decide (q.2.val + 1 = p.2.val))) ||
  (decide (p.2 = q.2) &&
    (decide (p.1.val + 1 = q.1.val) || decide (q.1.val + 1 = p.1.val)))

/-- One step of component growth: add every masked position adjacent to
the current set. -/
def grow {h w : Nat} (m : Fin h × Fin w → Bool) (s : Finset (Fin h × Fin w)) :
    Finset (Fin h × Fin w) :=
  s ∪ Finset.univ.filter (fun q => m q ∧ ∃ p ∈ s, adjacent p q)

/-- The connected component of `p` in mask `m`: growth iterated to its
(provable) fixpoint. -/
def compOf {h w : Nat} (m : Fin h × Fin w → Bool) (p : Fin h × Fin w) :
    Finset (Fin h × Fin w) :=
  (grow m)^[h * w] {p}

/-- Embedding of `remove_small_clusters`: a labeled pixel whose
component has fewer than `minArea` pixels becomes no-data, every other
pixel is unchanged. -/
def remove_small_clusters (h w : Nat) (g : Nat → Nat → Int) (minArea : Nat) :
    Nat → Nat → Int :=
  fun i j =>
    if hij : i < h ∧ j < w then
      let p : Fin h × Fin w := (⟨i, hij.1⟩, ⟨j, hij.2⟩)
      if maskOf h w g p ∧ (compOf (maskOf h w g) p).card < minArea then -9999
      else g i j
    else g i j

/-- A single masked-adjacency step between positions. -/
def compStep {h w : Nat} (m : Fin h × Fin w → Bool)
    (a b : Fin h × Fin w) : Prop :=
  m b = true ∧ adjacent a b = true

/-- Reachability along masked-adjacency steps. -/
def Reach {h w : Nat} (m : Fin h × Fin w → Bool)
    (a b : Fin h × Fin w) : Prop :=
  Relation.ReflTransGen (compStep m) a b

theorem subset_grow {h w : Nat} (m : Fin h × Fin w → Bool)
    (s : Finset (Fin h × Fin w)) : s ⊆ grow m s :=
  Finset.subset_union_left

theorem grow_mono {h w : Nat} {m m' : Fin h × Fin w → Bool}
    {s t : Finset (Fin h × Fin w)}
    (hm : ∀ x, m x = true → m' x = true) (hst : s ⊆ t) :
    grow m s ⊆ grow m' t := by
  intro q hq
  rcases Finset.mem_union.mp hq with hq | hq
  · exact Finset.mem_union_left _ (hst hq)
  · refine Finset.mem_union_right _ ?_
    rw [Finset.mem_filter] at hq ⊢
    obtain ⟨-, hmq, a, ha, hadj⟩ := hq
    exact ⟨Finset.mem_univ q, hm q hmq, a, hst ha, hadj⟩

theorem iterate_grow_mono {h w : Nat} {m m' : Fin h × Fin w → Bool}
    {s t : Finset (Fin h × Fin w)}
    (hm : ∀ x, m x = true → m' x = true) (hst : s ⊆ t) (n : Nat) :
    (grow m)^[n] s ⊆ (grow m')^[n] t := by
  induction n generalizing s t with
  | zero => simpa using hst
  | succ n ih =>
    rw [Function.iterate_succ_apply, Function.iterate_succ_apply]
    exact ih (grow_mono hm hst)

theorem subset_iterate_grow {h w : Nat} (m : Fin h × Fin w → Bool)
    (s : Finset (Fin h × Fin w)) (n : Nat) : s ⊆ (grow m)^[n] s := by
  induction n with
  | zero => simp
  | succ n ih =>
    rw [Function.iterate_succ_apply']
    exact ih.trans (subset_grow m _)

theorem compOf_fixed {h w : Nat} (m : Fin h × Fin w → Bool)
    (p : Fin h × Fin w) : grow m (compOf m p) = compOf m p := by
  have key : ∀ k : Nat,
      k + 1 ≤ ((grow m)^[k] ({p} : Finset (Fin h × Fin w))).card ∨
      grow m ((grow m)^[k] ({p} : Finset (Fin h × Fin w))) =
        (grow m)^[k] ({p} : Finset (Fin h × Fin w)) := by
    intro k
    induction k with
    | zero => left; simp
    | succ k ih =>
      rcases ih with ih | ih
      · by_cases hfix : grow m ((grow m)^[k] ({p} : Finset (Fin h × Fin w))) =
            (grow m)^[k] ({p} : Finset (Fin h × Fin w))
        · right
          rw [Function.iterate_succ_apply', hfix]
          exact hfix
        · left
          have hss : (grow m)^[k] ({p} : Finset (Fin h × Fin w)) ⊂
              grow m ((grow m)^[k] ({p} : Finset (Fin h × Fin w))) :=
            HasSubset.Subset.ssubset_of_ne (subset_grow m _) (Ne.symm hfix)
          have hcard := Finset.card_lt_card hss
          rw [Function.iterate_succ_apply']
          omega
      · right
        rw [Function.iterate_succ_apply', ih]
        exact ih
  rcases key (h * w) with hk | hk
  · exfalso
    have hle : ((grow m)^[h * w] ({p} : Finset (Fin h × Fin w))).card ≤ h * w := by
      have := Finset.card_le_univ ((grow m)^[h * w] ({p} : Finset (Fin h × Fin w)))
      simpa using this
    omega
  · exact hk

theorem compOf_subset_closed {h w : Nat} (m : Fin h × Fin w → Bool)
    (p : Fin h × Fin w) {s : Finset (Fin h × Fin w)}
    (hp : p ∈ s) (hcl : grow m s ⊆ s) : compOf m p ⊆ s := by
  have hall : ∀ n, (grow m)^[n] ({p} : Finset (Fin h × Fin w)) ⊆ s := by
    intro n
    induction n with
    | zero => simpa using hp
    | succ n ih =>
      rw [Function.iterate_succ_apply']
      exact (grow_mono (fun x hx => hx) ih).trans hcl
  exact hall (h * w)

theorem mem_compOf_self {h w : Nat} (m : Fin h × Fin w → Bool)
    (p : Fin h × Fin w) : p ∈ compOf m p :=
  subset_iterate_grow m {p} (h * w) (Finset.mem_singleton_self p)

theorem mem_of_mem_compOf {h w : Nat} {m : Fin h × Fin w → Bool}
    {p q : Fin h × Fin w} (hp : m p = true) (hq : q ∈ compOf m p) :
    m q = true := by
  have hall : ∀ n (x : Fin h × Fin w),
      x ∈ (grow m)^[n] ({p} : Finset (Fin h × Fin w)) → m x = true := by
    intro n
    induction n with
    | zero =>
      intro x hx
      rw [Function.iterate_zero_apply, Finset.mem_singleton] at hx
      exact hx ▸ hp
    | succ n ih =>
      intro x hx
      rw [Function.iterate_succ_apply'] at hx
      rcases Finset.mem_union.mp hx with hx | hx
      · exact ih x hx
      · exact (Finset.mem_filter.mp hx).2.1
  exact hall (h * w) q hq

theorem reach_of_mem_compOf {h w : Nat} {m : Fin h × Fin w → Bool}
    {p q : Fin h × Fin w} (hq : q ∈ compOf m p) : Reach m p q := by
  have hall : ∀ n (x : Fin h × Fin w),
      x ∈ (grow m)^[n] ({p} : Finset (Fin h × Fin w)) → Reach m p x := by
    intro n
    induction n with
    | zero =>
      intro x hx
      rw [Function.iterate_zero_apply, Finset.mem_singleton] at hx
      exact hx ▸ Relation.ReflTransGen.refl
    | succ n ih =>
      intro x hx
      rw [Function.iterate_succ_apply'] at hx
      rcases Finset.mem_union.mp hx with hx | hx
      · exact ih x hx
      · obtain ⟨-, hmx, a, ha, hadj⟩ := Finset.mem_filter.mp hx
        exact Relation.ReflTransGen.tail (ih a ha) ⟨hmx, hadj⟩
  exact hall (h * w) q hq

theorem mem_compOf_of_reach {h w : Nat} {m : Fin h × Fin w → Bool}
    {p q : Fin h × Fin w} (hr : Reach m p q) : q ∈ compOf m p := by
  induction hr with
  | refl => exact mem_compOf_self m p
  | tail hab hbc ih =>
    rw [← compOf_fixed m p]
    exact Finset.mem_union_right _
      (Finset.mem_filter.mpr ⟨Finset.mem_univ _, hbc.1, _, ih, hbc.2⟩)

theorem adjacent_symm {h w : Nat} {p q : Fin h × Fin w}
    (hadj : adjacent p q = true) : adjacent q p = true := by
  simp only [adjacent, Bool.or_eq_true, Bool.and_eq_true,
    decide_eq_true_eq] at hadj ⊢
  rcases hadj with ⟨h1, h2⟩ | ⟨h1, h2⟩
  · exact Or.inl ⟨h1.symm, h2.symm⟩
  · exact Or.inr ⟨h1.symm, h2.symm⟩

theorem reach_symm {h w : Nat} {m : Fin h × Fin w → Bool}
    {p q : Fin h × Fin w} (hp : m p = true) (hr : Reach m p q) :
    m q = true ∧ Reach m q p := by
  induction hr with
  | refl => exact ⟨hp, Relation.ReflTransGen.refl⟩
  | tail hab hbc ih =>
    exact ⟨hbc.1,
      Relation.ReflTransGen.trans
        (Relation.ReflTransGen.single ⟨ih.1, adjacent_symm hbc.2⟩) ih.2⟩

theorem compOf_eq_of_mem {h w : Nat} {m : Fin h × Fin w → Bool}
    {p q : Fin h × Fin w} (hp : m p = true) (hq : q ∈ compOf m p) :
    compOf m q = compOf m p := by
  obtain ⟨hmq, hrq⟩ := reach_symm hp (reach_of_mem_compOf hq)
  apply Finset.Subset.antisymm
  · exact compOf_subset_closed m q hq
      (fun x hx => (compOf_fixed m p) ▸ hx)
  · exact compOf_subset_closed m p (mem_compOf_of_reach hrq)
      (fun x hx => (compOf_fixed m q) ▸ hx)

theorem compOf_mask_mono {h w : Nat} {m m' : Fin h × Fin w → Bool}
    (hm : ∀ x, m x = true → m' x = true) (p : Fin h × Fin w) :
    compOf m p ⊆ compOf m' p :=
  iterate_grow_mono hm (Finset.Subset.refl _) (h * w)

/-- C6: `remove_small_clusters` works on the connected components of
the is-labeled mask (first conjunct: the component is well-defined —
every member has the same component); every pixel of a component whose
count is below the threshold becomes no-data (second conjunct); every
pixel of a component at or above the threshold is preserved exactly
(third conjunct); no pixel changes except to no-data (fourth conjunct);
and no component's pixel count ever increases (fifth conjunct). -/
theorem small_cluster_removal_props (h w : Nat) (g : Nat → Nat → Int)
    (t : Nat) (p : Fin h × Fin w) (hp : maskOf h w g p = true) :
    (∀ q ∈ compOf (maskOf h w g) p,
      compOf (maskOf h w g) q = compOf (maskOf h w g) p) ∧
    ((compOf (maskOf h w g) p).card < t →
      ∀ q ∈ compOf (maskOf h w g) p,
        remove_small_clusters h w g t q.1 q.2 = -9999) ∧
    (t ≤ (compOf (maskOf h w g) p).card →
      ∀ q ∈ compOf (maskOf h w g) p,
        remove_small_clusters h w g t q.1 q.2 = g q.1 q.2) ∧
    (∀ i j : Nat, remove_small_clusters h w g t i j = -9999 ∨
      remove_small_clusters h w g t i j = g i j) ∧
    (compOf (maskOf h w (remove_small_clusters h w g t)) p).card ≤
      (compOf (maskOf h w g) p).card := by
  have hpix : ∀ i j : Nat, remove_small_clusters h w g t i j = -9999 ∨
      remove_small_clusters h w g t i j = g i j := by
    intro i j
    unfold remove_small_clusters
    by_cases hb : i < h ∧ j < w
    · rw [dif_pos hb]
      by_cases hc : maskOf h w g (⟨i, hb.1⟩, ⟨j, hb.2⟩) = true ∧
          (compOf (maskOf h w g) (⟨i, hb.1⟩, ⟨j, hb.2⟩)).card < t
      · rw [if_pos hc]
        exact Or.inl rfl
      · rw [if_neg hc]
        exact Or.inr rfl
    · rw [dif_neg hb]
      exact Or.inr rfl
  have heval : ∀ q : Fin h × Fin w,
      remove_small_clusters h w g t q.1 q.2 =
        if maskOf h w g q ∧ (compOf (maskOf h w g) q).card < t then -9999
        else g q.1 q.2 := by
    intro q
    unfold remove_small_clusters
    rw [dif_pos (⟨q.1.isLt, q.2.isLt⟩ : q.1.val < h ∧ q.2.val < w)]
  refine ⟨fun q hq => compOf_eq_of_mem hp hq,
    fun hlt q hq => ?_, fun hge q hq => ?_, hpix, ?_⟩
  · rw [heval q, if_pos
      ⟨mem_of_mem_compOf hp hq, by rw [compOf_eq_of_mem hp hq]; exact hlt⟩]
  · rw [heval q, if_neg]
    rintro ⟨hmq, hc⟩
    rw [compOf_eq_of_mem hp hq] at hc
    omega
  · refine Finset.card_le_card (compOf_mask_mono ?_ p)
    intro x hx
    simp only [maskOf, decide_eq_true_eq] at hx ⊢
    rcases hpix x.1 x.2 with hc | hc
    · exact absurd hc hx
    · rw [hc] at hx
      exact hx

/-- A concrete 2×2 grid with two isolated single-pixel components. -/
def gComp : Nat → Nat → Int :=
  fun i j => if i = 0 ∧ j = 0 then 0 else if i = 1 ∧ j = 1 then 1 else -9999

/-- Witness for C6: on `gComp` the single-pixel component at (0,0) is
below the threshold 2 and is reassigned to no-data. -/
theorem small_cluster_removal_props_witness :
    remove_small_clusters 2 2 gComp 2 0 0 = -9999 :=
  (small_cluster_removal_props 2 2 gComp 2 ((0 : Fin 2), (0 : Fin 2))
      (by decide)).2.1 (by decide) ((0 : Fin 2), (0 : Fin 2)) (by decide)

end AAUGeo
